import Mathlib

/-!
Verification development for the anonymous Q&A voting subsystem (Ego.py).

The definitions below are a shallow embedding of the source:
* network fingerprint derivation (`client_ip`, `make_ip_hash`, the inline
  subnet normalization of `make_ip_hash` named `normalizeSubnet` here);
* the vote ledger state (tables `avotes`, `qvotes`, plus the content
  tables `questions` and `answers` they are validated against);
* the two mutating operations `vote_answer` and `vote_question`.

Strings are processed through explicit character-level helpers so that
every definition reduces inside the kernel; the helpers implement exactly
the Python `str.split(sep)` / `sep.join(parts)` / `str.strip()` behaviour
used by the source (all separators in the source are single characters).
The keyed hash (HMAC-SHA256 in the source) is kept abstract: it enters
every definition as an explicit function argument.
-/

/-- Python `s.split(c)` on a single-character separator, over `List Char`;
the accumulator holds the current field reversed. -/
def splitOnCharAux (c : Char) : List Char → List Char → List (List Char)
  | [], acc => [acc.reverse]
  | x :: xs, acc =>
    if x == c then acc.reverse :: splitOnCharAux c xs []
    else splitOnCharAux c xs (x :: acc)

/-- Python `s.split(c)` for a single-character separator `c`. -/
def splitOnChar (c : Char) (s : String) : List String :=
  (splitOnCharAux c s.toList []).map String.mk

/-- Python `c.join(parts)` for a single-character separator `c`. -/
def joinWithChar (c : Char) : List String → String
  | [] => ""
  | [x] => x
  | x :: xs => x ++ String.singleton c ++ joinWithChar c xs

/-- Python `c in s` for a single character `c`. -/
def containsChar (c : Char) (s : String) : Bool :=
  s.toList.any (fun x => x == c)

/-- Python `s.strip()` (whitespace from both ends). -/
def stripStr (s : String) : String :=
  String.mk (((s.toList.dropWhile Char.isWhitespace).reverse.dropWhile
    Char.isWhitespace).reverse)

/-- Subnet normalization, inline in `make_ip_hash` (Ego.py lines 114-119):
an address containing a colon keeps its first 4 colon groups; otherwise,
if it splits into exactly 4 dot parts, the first 3 parts plus a `"0"`
octet are kept; any other address passes through unchanged. -/
def normalizeSubnet (ip : String) : String :=
  if containsChar ':' ip then
    joinWithChar ':' ((splitOnChar ':' ip).take 4)
  else
    let parts := splitOnChar '.' ip
    if parts.length == 4 then joinWithChar '.' (parts.take 3 ++ ["0"]) else ip

/-- `make_ip_hash` (Ego.py lines 113-120): keyed hash of the normalized
subnet. The HMAC construction stays abstract as the argument `hm`. -/
def make_ip_hash (hm : String → String → String) (secret : String)
    (ip : String) : String :=
  hm secret (normalizeSubnet ip)

/-- `client_ip` (Ego.py lines 109-111): first comma-separated entry of the
forwarded-address header if present, else the peer address, else `""`;
then stripped of surrounding whitespace. -/
def client_ip (xff : Option String) (remoteAddr : Option String) : String :=
  stripStr (((splitOnChar ',' (xff.getD (remoteAddr.getD ""))).headD ""))

/-- A row of the `avotes` table (Ego.py lines 67-75): one answer vote.
Row identity is positional (lists keep insertion order, as SQLite rowids
do); timestamps are seconds as integers. -/
structure AVote where
  question_id : Nat
  answer_id : Nat
  anon_hash : String
  ip_hash : String
  created_at : Int
deriving DecidableEq, Repr

/-- A row of the `qvotes` table (Ego.py lines 81-87): one question vote. -/
structure QVote where
  question_id : Nat
  anon_hash : String
  created_at : Int
deriving DecidableEq, Repr

/-- The persistent state: the `questions` table (ids only), the `answers`
table as (id, question_id) pairs, and the two vote tables. -/
structure DB where
  questions : List Nat
  answers : List (Nat × Nat)
  avotes : List AVote
  qvotes : List QVote
deriving DecidableEq, Repr

/-- The key predicate of the `UNIQUE(question_id, anon_hash)` constraint on
`avotes`, also the lookup predicate of
`SELECT ... FROM avotes WHERE question_id=? AND anon_hash=?`. -/
def isAVoteFor (qid : Nat) (ah : String) (v : AVote) : Bool :=
  v.question_id == qid && v.anon_hash == ah

/-- Same key predicate for the `qvotes` table. -/
def isQVoteFor (qid : Nat) (ah : String) (v : QVote) : Bool :=
  v.question_id == qid && v.anon_hash == ah

/-- `SELECT 1 FROM answers WHERE id=? AND question_id=?` (Ego.py line 695). -/
def answerExists (db : DB) (aid qid : Nat) : Bool :=
  db.answers.any (fun p => p.1 == aid && p.2 == qid)

/-- `SELECT 1 FROM questions WHERE id=?` (Ego.py line 674). -/
def questionExists (db : DB) (qid : Nat) : Bool :=
  db.questions.any (fun x => x == qid)

/-- One disjunct of the rate-check query (Ego.py lines 702-706): same
question, same subnet hash, different identity hash, created within the
trailing day (86400 seconds). -/
def isRecentOther (now : Int) (qid : Nat) (iph ah : String) (v : AVote) : Bool :=
  v.question_id == qid && v.ip_hash == iph && !(v.anon_hash == ah) &&
    decide (now - 86400 ≤ v.created_at)

/-- The rate-check query itself: does any such row exist? -/
def recentOther (db : DB) (now : Int) (qid : Nat) (iph ah : String) : Bool :=
  db.avotes.any (isRecentOther now qid iph ah)

/-- `SELECT id, answer_id FROM avotes WHERE question_id=? AND anon_hash=?`
(Ego.py line 711): the caller's own existing answer vote, if any. -/
def findAVote (db : DB) (qid : Nat) (ah : String) : Option AVote :=
  db.avotes.find? (isAVoteFor qid ah)

/-- `SELECT id FROM qvotes WHERE question_id=? AND anon_hash=?`
(Ego.py line 679). -/
def findQVote (db : DB) (qid : Nat) (ah : String) : Option QVote :=
  db.qvotes.find? (isQVoteFor qid ah)

/-- `SELECT COUNT(*) FROM avotes WHERE question_id=? AND answer_id=?`. -/
def countAVotes (db : DB) (qid aid : Nat) : Nat :=
  db.avotes.countP (fun v => v.question_id == qid && v.answer_id == aid)

/-- `SELECT COUNT(*) FROM qvotes WHERE question_id=?`. -/
def countQVotes (db : DB) (qid : Nat) : Nat :=
  db.qvotes.countP (fun v => v.question_id == qid)

/-- `DELETE ... WHERE id=?` applied to the row that a preceding `find?` on
`p` located: remove the first element satisfying `p`. -/
def eraseFirstP (p : α → Bool) : List α → List α
  | [] => []
  | x :: xs => if p x then xs else x :: eraseFirstP p xs

/-- `UPDATE ... WHERE id=?` applied to the row that a preceding `find?` on
`p` located: rewrite the first element satisfying `p` through `f`. -/
def updateFirstP (p : α → Bool) (f : α → α) : List α → List α
  | [] => []
  | x :: xs => if p x then f x :: xs else x :: updateFirstP p f xs

/-- The field rewrite of the move branch (Ego.py line 726):
`UPDATE avotes SET answer_id=?, ip_hash=?, created_at=? WHERE id=?`. -/
def moveAVote (aid : Nat) (iph : String) (now : Int) (v : AVote) : AVote :=
  { v with answer_id := aid, ip_hash := iph, created_at := now }

/-- The storage layer's reaction to a violated uniqueness constraint
(sqlite3 raises IntegrityError on the INSERT). -/
inductive StorageConflict where
  | uniqueViolation
deriving DecidableEq, Repr

/-- `INSERT INTO avotes(...)`: fails with the uniqueness violation when a
row with the same (question_id, anon_hash) key already exists, otherwise
appends the row. -/
def avInsert (db : DB) (row : AVote) : Except StorageConflict DB :=
  if db.avotes.any (isAVoteFor row.question_id row.anon_hash) then
    Except.error StorageConflict.uniqueViolation
  else
    Except.ok { db with avotes := db.avotes ++ [row] }

/-- `INSERT INTO qvotes(...)`: same uniqueness behaviour on `qvotes`. -/
def qvInsert (db : DB) (row : QVote) : Except StorageConflict DB :=
  if db.qvotes.any (isQVoteFor row.question_id row.anon_hash) then
    Except.error StorageConflict.uniqueViolation
  else
    Except.ok { db with qvotes := db.qvotes ++ [row] }

/-- The JSON bodies `vote_answer` can produce: `not_found` (404),
`ip_cap` (429), or `ok=True` with `voted`, `count`, `cleared_answer_id`
and `prev_count`. -/
inductive VoteResp where
  | notFound
  | rateLimited
  | ok (voted : Bool) (count : Nat) (clearedAnswerId : Option Nat)
      (prevCount : Option Nat)
deriving DecidableEq, Repr

/-- The JSON bodies `vote_question` can produce: `not_found` (404) or
`ok=True` with `voted` and `count`. -/
inductive QVoteResp where
  | notFound
  | ok (voted : Bool) (count : Nat)
deriving DecidableEq, Repr

/-- The tail of `vote_answer`'s else-branch (Ego.py lines 731-737): the
bare INSERT followed by the count query. The source wraps the INSERT in no
exception handler, so a storage conflict propagates to the caller. -/
def vote_answer_insertBranch (db : DB) (now : Int) (qid aid : Nat)
    (ah iph : String) : Except StorageConflict (VoteResp × DB) :=
  match avInsert db ⟨qid, aid, ah, iph, now⟩ with
  | Except.error e => Except.error e
  | Except.ok db' =>
    Except.ok (VoteResp.ok true (countAVotes db' qid aid) none none, db')

/-- `vote_answer` (Ego.py lines 692-737). Checks the answer exists and
belongs to the question; then the subnet rate check; then branches on the
caller's existing vote: toggle off (delete), move (in-place update), or
first vote (insert). Every returned count is recomputed from the
post-mutation state, as the source's final COUNT(*) queries are. -/
def vote_answer (db : DB) (now : Int) (qid aid : Nat) (ah iph : String) :
    Except StorageConflict (VoteResp × DB) :=
  if answerExists db aid qid = false then
    Except.ok (VoteResp.notFound, db)
  else if recentOther db now qid iph ah then
    Except.ok (VoteResp.rateLimited, db)
  else
    match findAVote db qid ah with
    | some v =>
      if v.answer_id == aid then
        let db' := { db with avotes := eraseFirstP (isAVoteFor qid ah) db.avotes }
        Except.ok (VoteResp.ok false (countAVotes db' qid aid) none none, db')
      else
        let db' := { db with
          avotes := updateFirstP (isAVoteFor qid ah) (moveAVote aid iph now) db.avotes }
        Except.ok (VoteResp.ok true (countAVotes db' qid aid)
          (some v.answer_id) (some (countAVotes db' qid v.answer_id)), db')
    | none => vote_answer_insertBranch db now qid aid ah iph

/-- `vote_question` (Ego.py lines 671-690). Checks the question exists,
then toggles the presence of the (question_id, anon_hash) row; there is no
rate check on this path. -/
def vote_question (db : DB) (now : Int) (qid : Nat) (ah : String) :
    Except StorageConflict (QVoteResp × DB) :=
  if questionExists db qid = false then
    Except.ok (QVoteResp.notFound, db)
  else
    match findQVote db qid ah with
    | some _ =>
      let db' := { db with qvotes := eraseFirstP (isQVoteFor qid ah) db.qvotes }
      Except.ok (QVoteResp.ok false (countQVotes db' qid), db')
    | none =>
      match qvInsert db ⟨qid, ah, now⟩ with
      | Except.error e => Except.error e
      | Except.ok db' =>
        Except.ok (QVoteResp.ok true (countQVotes db' qid), db')

/-- One client-visible ledger operation, with its request time and the
(already hashed) identity and subnet fingerprints. -/
inductive Op where
  | castAnswerVote (now : Int) (qid aid : Nat) (ah iph : String)
  | castQuestionVote (now : Int) (qid : Nat) (ah : String)

/-- Apply one operation to the state; an operation that fails (including
a storage conflict, whose INSERT did not happen) leaves the state as is. -/
def applyOp (db : DB) : Op → DB
  | Op.castAnswerVote now qid aid ah iph =>
    match vote_answer db now qid aid ah iph with
    | Except.ok (_, db') => db'
    | Except.error _ => db
  | Op.castQuestionVote now qid ah =>
    match vote_question db now qid ah with
    | Except.ok (_, db') => db'
    | Except.error _ => db

/-- Run a sequence of ledger operations. -/
def runOps (db : DB) (ops : List Op) : DB :=
  ops.foldl applyOp db

/-- At most one `avotes` row per (question, identity hash). -/
def AUnique (db : DB) : Prop :=
  ∀ q h, db.avotes.countP (isAVoteFor q h) ≤ 1

/-- At most one `qvotes` row per (question, identity hash). -/
def QUnique (db : DB) : Prop :=
  ∀ q h, db.qvotes.countP (isQVoteFor q h) ≤ 1

/-- A successful `find?` splits the list around the found element, with
nothing matching before it. -/
theorem find?_decomp {p : α → Bool} {l : List α} {v : α}
    (h : l.find? p = some v) :
    ∃ l1 l2, l = l1 ++ v :: l2 ∧ (∀ x ∈ l1, p x = false) ∧ p v = true := by
  induction l with
  | nil => simp at h
  | cons a t ih =>
    rw [List.find?_cons] at h
    cases hpa : p a with
    | true =>
      rw [hpa] at h
      simp only [Option.some.injEq] at h
      subst h
      refine ⟨[], t, rfl, ?_, hpa⟩
      intro x hx
      exact absurd hx (List.not_mem_nil x)
    | false =>
      rw [hpa] at h
      obtain ⟨l1, l2, rfl, h1, h2⟩ := ih h
      refine ⟨a :: l1, l2, rfl, ?_, h2⟩
      intro x hx
      rcases List.mem_cons.mp hx with rfl | hx
      · exact hpa
      · exact h1 x hx

/-- `eraseFirstP` on a decomposed list removes exactly the pivot. -/
theorem eraseFirstP_decomp (p : α → Bool) (l1 : List α) (v : α) (l2 : List α)
    (h1 : ∀ x ∈ l1, p x = false) (hv : p v = true) :
    eraseFirstP p (l1 ++ v :: l2) = l1 ++ l2 := by
  induction l1 with
  | nil => simp [eraseFirstP, hv]
  | cons a t ih =>
    have ha : p a = false := h1 a (List.mem_cons_self a t)
    simp only [List.cons_append, eraseFirstP, ha, Bool.false_eq_true,
      if_false, List.cons.injEq, true_and]
    exact ih (fun x hx => h1 x (List.mem_cons_of_mem a hx))

/-- `updateFirstP` on a decomposed list rewrites exactly the pivot. -/
theorem updateFirstP_decomp (p : α → Bool) (f : α → α) (l1 : List α) (v : α)
    (l2 : List α) (h1 : ∀ x ∈ l1, p x = false) (hv : p v = true) :
    updateFirstP p f (l1 ++ v :: l2) = l1 ++ f v :: l2 := by
  induction l1 with
  | nil => simp [updateFirstP, hv]
  | cons a t ih =>
    have ha : p a = false := h1 a (List.mem_cons_self a t)
    simp only [List.cons_append, updateFirstP, ha, Bool.false_eq_true,
      if_false, List.cons.injEq, true_and]
    exact ih (fun x hx => h1 x (List.mem_cons_of_mem a hx))

/-- Erasing the first match yields a sublist. -/
theorem eraseFirstP_sublist (p : α → Bool) (l : List α) :
    List.Sublist (eraseFirstP p l) l := by
  induction l with
  | nil => simp [eraseFirstP]
  | cons a t ih =>
    by_cases hpa : p a = true
    · simp only [eraseFirstP, hpa, if_true]
      exact List.sublist_cons_self a t
    · simp only [eraseFirstP, hpa, if_false]
      exact List.Sublist.cons₂ a ih

/-- Rewriting one element through a function that does not change how `q`
evaluates leaves the `q`-count unchanged. -/
theorem countP_updateFirstP (q p : α → Bool) (f : α → α)
    (hf : ∀ v, q (f v) = q v) (l : List α) :
    List.countP q (updateFirstP p f l) = List.countP q l := by
  induction l with
  | nil => rfl
  | cons a t ih =>
    by_cases hpa : p a = true
    · simp [updateFirstP, hpa, List.countP_cons, hf]
    · simp [updateFirstP, hpa, List.countP_cons, ih]

/-- A list whose `p`-count is at most one holds at most one `p`-element. -/
theorem countP_le_one_unique {p : α → Bool} {l : List α}
    (h : List.countP p l ≤ 1) {v1 v2 : α} (h1 : v1 ∈ l) (h2 : v2 ∈ l)
    (hp1 : p v1 = true) (hp2 : p v2 = true) : v1 = v2 := by
  rw [List.countP_eq_length_filter] at h
  have m1 : v1 ∈ List.filter p l := List.mem_filter.mpr ⟨h1, hp1⟩
  have m2 : v2 ∈ List.filter p l := List.mem_filter.mpr ⟨h2, hp2⟩
  match hl : List.filter p l with
  | [] => rw [hl] at m1; cases m1
  | [x] =>
    rw [hl] at m1 m2
    rw [List.mem_singleton.mp m1, List.mem_singleton.mp m2]
  | x :: y :: t => rw [hl] at h; simp at h

/-- `answerExists` is membership of the (answer id, question id) pair. -/
theorem answerExists_iff (db : DB) (aid qid : Nat) :
    answerExists db aid qid = true ↔ (aid, qid) ∈ db.answers := by
  simp only [answerExists, List.any_eq_true, Bool.and_eq_true, beq_iff_eq]
  constructor
  · rintro ⟨⟨x, y⟩, hm, h1, h2⟩
    subst h1; subst h2; exact hm
  · intro hm; exact ⟨(aid, qid), hm, rfl, rfl⟩

/-- `questionExists` is membership of the question id. -/
theorem questionExists_iff (db : DB) (qid : Nat) :
    questionExists db qid = true ↔ qid ∈ db.questions := by
  simp [questionExists, List.any_eq_true]

/-- The rate-check query, as an existential over the `avotes` rows. -/
theorem recentOther_iff (db : DB) (now : Int) (qid : Nat) (iph ah : String) :
    recentOther db now qid iph ah = true ↔
      ∃ v ∈ db.avotes, v.question_id = qid ∧ v.ip_hash = iph ∧
        v.anon_hash ≠ ah ∧ now - 86400 ≤ v.created_at := by
  simp [recentOther, isRecentOther, List.any_eq_true, Bool.and_eq_true,
    beq_iff_eq, and_assoc]

/-- A failed key lookup means the key's count is zero. -/
theorem countP_eq_zero_of_find?_none {p : α → Bool} {l : List α}
    (h : l.find? p = none) : List.countP p l = 0 :=
  List.countP_eq_zero.mpr (List.find?_eq_none.mp h)

/-- A failed key lookup means `any` on the same key is false. -/
theorem any_eq_false_of_find?_none {p : α → Bool} {l : List α}
    (h : l.find? p = none) : l.any p = false :=
  List.any_eq_false.mpr (List.find?_eq_none.mp h)

/-- Missing answer (or wrong question): `vote_answer` answers `not_found`
and returns the state unchanged. -/
theorem vote_answer_eq_notFound {db : DB} {now : Int} {qid aid : Nat}
    {ah iph : String} (h : answerExists db aid qid = false) :
    vote_answer db now qid aid ah iph = Except.ok (VoteResp.notFound, db) := by
  simp [vote_answer, h]

/-- Triggered rate check: `vote_answer` answers `ip_cap` and returns the
state unchanged. -/
theorem vote_answer_eq_rateLimited {db : DB} {now : Int} {qid aid : Nat}
    {ah iph : String} (h1 : answerExists db aid qid = true)
    (h2 : recentOther db now qid iph ah = true) :
    vote_answer db now qid aid ah iph = Except.ok (VoteResp.rateLimited, db) := by
  simp [vote_answer, h1, h2]

/-- Existing vote for the same answer: toggle off (delete the row). -/
theorem vote_answer_eq_toggleOff {db : DB} {now : Int} {qid aid : Nat}
    {ah iph : String} {v : AVote} (h1 : answerExists db aid qid = true)
    (h2 : recentOther db now qid iph ah = false)
    (h3 : findAVote db qid ah = some v) (h4 : v.answer_id = aid) :
    vote_answer db now qid aid ah iph =
      Except.ok (VoteResp.ok false
        (countAVotes { db with avotes := eraseFirstP (isAVoteFor qid ah) db.avotes } qid aid)
        none none,
        { db with avotes := eraseFirstP (isAVoteFor qid ah) db.avotes }) := by
  simp [vote_answer, h1, h2, findAVote] at *
  simp [h3, h4]

/-- Existing vote for a different answer: move (update the row in place). -/
theorem vote_answer_eq_move {db : DB} {now : Int} {qid aid : Nat}
    {ah iph : String} {v : AVote} (h1 : answerExists db aid qid = true)
    (h2 : recentOther db now qid iph ah = false)
    (h3 : findAVote db qid ah = some v) (h4 : v.answer_id ≠ aid) :
    vote_answer db now qid aid ah iph =
      Except.ok (VoteResp.ok true
        (countAVotes { db with
          avotes := updateFirstP (isAVoteFor qid ah) (moveAVote aid iph now) db.avotes } qid aid)
        (some v.answer_id)
        (some (countAVotes { db with
          avotes := updateFirstP (isAVoteFor qid ah) (moveAVote aid iph now) db.avotes }
          qid v.answer_id)),
        { db with
          avotes := updateFirstP (isAVoteFor qid ah) (moveAVote aid iph now) db.avotes }) := by
  simp [vote_answer, h1, h2, findAVote] at *
  simp [h3, h4]

/-- No existing vote: insert a fresh row; the preceding failed lookup
guarantees the uniqueness constraint cannot fire. -/
theorem vote_answer_eq_insert {db : DB} {now : Int} {qid aid : Nat}
    {ah iph : String} (h1 : answerExists db aid qid = true)
    (h2 : recentOther db now qid iph ah = false)
    (h3 : findAVote db qid ah = none) :
    vote_answer db now qid aid ah iph =
      Except.ok (VoteResp.ok true
        (countAVotes { db with avotes := db.avotes ++ [⟨qid, aid, ah, iph, now⟩] } qid aid)
        none none,
        { db with avotes := db.avotes ++ [⟨qid, aid, ah, iph, now⟩] }) := by
  have hno : db.avotes.any (isAVoteFor qid ah) = false :=
    any_eq_false_of_find?_none h3
  simp [vote_answer, h1, h2, h3, vote_answer_insertBranch, avInsert, hno]

/-- Missing question: `vote_question` answers `not_found` unchanged. -/
theorem vote_question_eq_notFound {db : DB} {now : Int} {qid : Nat}
    {ah : String} (h : questionExists db qid = false) :
    vote_question db now qid ah = Except.ok (QVoteResp.notFound, db) := by
  simp [vote_question, h]

/-- Existing question vote: toggle off (delete the row). -/
theorem vote_question_eq_toggleOff {db : DB} {now : Int} {qid : Nat}
    {ah : String} {v : QVote} (h1 : questionExists db qid = true)
    (h2 : findQVote db qid ah = some v) :
    vote_question db now qid ah =
      Except.ok (QVoteResp.ok false
        (countQVotes { db with qvotes := eraseFirstP (isQVoteFor qid ah) db.qvotes } qid),
        { db with qvotes := eraseFirstP (isQVoteFor qid ah) db.qvotes }) := by
  simp [vote_question, h1, findQVote] at *
  simp [h2]

/-- No existing question vote: insert a fresh row; again the failed
lookup means the uniqueness constraint cannot fire. -/
theorem vote_question_eq_insert {db : DB} {now : Int} {qid : Nat}
    {ah : String} (h1 : questionExists db qid = true)
    (h2 : findQVote db qid ah = none) :
    vote_question db now qid ah =
      Except.ok (QVoteResp.ok true
        (countQVotes { db with qvotes := db.qvotes ++ [⟨qid, ah, now⟩] } qid),
        { db with qvotes := db.qvotes ++ [⟨qid, ah, now⟩] }) := by
  have hno : db.qvotes.any (isQVoteFor qid ah) = false :=
    any_eq_false_of_find?_none h2
  simp [vote_question, h1, h2, qvInsert, hno]

/-- Exhaustive description of the state reached by a completed
`vote_answer` call: the content tables and `qvotes` are untouched, and
`avotes` is unchanged, extended by the new row (only after a failed
lookup), shrunk by the caller's row, or rewritten at the caller's row. -/
theorem vote_answer_state (db : DB) (now : Int) (qid aid : Nat)
    (ah iph : String) (resp : VoteResp) (db' : DB)
    (h : vote_answer db now qid aid ah iph = Except.ok (resp, db')) :
    db'.questions = db.questions ∧ db'.answers = db.answers ∧
    db'.qvotes = db.qvotes ∧
    (db'.avotes = db.avotes ∨
     (findAVote db qid ah = none ∧
        db'.avotes = db.avotes ++ [⟨qid, aid, ah, iph, now⟩]) ∨
     db'.avotes = eraseFirstP (isAVoteFor qid ah) db.avotes ∨
     db'.avotes = updateFirstP (isAVoteFor qid ah) (moveAVote aid iph now) db.avotes) := by
  cases hEx : answerExists db aid qid with
  | false =>
    rw [vote_answer_eq_notFound hEx] at h
    simp only [Except.ok.injEq, Prod.mk.injEq] at h
    rw [← h.2]
    exact ⟨rfl, rfl, rfl, Or.inl rfl⟩
  | true =>
    cases hR : recentOther db now qid iph ah with
    | true =>
      rw [vote_answer_eq_rateLimited hEx hR] at h
      simp only [Except.ok.injEq, Prod.mk.injEq] at h
      rw [← h.2]
      exact ⟨rfl, rfl, rfl, Or.inl rfl⟩
    | false =>
      cases hF : findAVote db qid ah with
      | none =>
        rw [vote_answer_eq_insert hEx hR hF] at h
        simp only [Except.ok.injEq, Prod.mk.injEq] at h
        rw [← h.2]
        exact ⟨rfl, rfl, rfl, Or.inr (Or.inl ⟨rfl, rfl⟩)⟩
      | some v =>
        by_cases hv : v.answer_id = aid
        · rw [vote_answer_eq_toggleOff hEx hR hF hv] at h
          simp only [Except.ok.injEq, Prod.mk.injEq] at h
          rw [← h.2]
          exact ⟨rfl, rfl, rfl, Or.inr (Or.inr (Or.inl rfl))⟩
        · rw [vote_answer_eq_move hEx hR hF hv] at h
          simp only [Except.ok.injEq, Prod.mk.injEq] at h
          rw [← h.2]
          exact ⟨rfl, rfl, rfl, Or.inr (Or.inr (Or.inr rfl))⟩

/-- Exhaustive description of the state reached by a completed
`vote_question` call. -/
theorem vote_question_state (db : DB) (now : Int) (qid : Nat) (ah : String)
    (resp : QVoteResp) (db' : DB)
    (h : vote_question db now qid ah = Except.ok (resp, db')) :
    db'.questions = db.questions ∧ db'.answers = db.answers ∧
    db'.avotes = db.avotes ∧
    (db'.qvotes = db.qvotes ∨
     (findQVote db qid ah = none ∧ db'.qvotes = db.qvotes ++ [⟨qid, ah, now⟩]) ∨
     db'.qvotes = eraseFirstP (isQVoteFor qid ah) db.qvotes) := by
  cases hEx : questionExists db qid with
  | false =>
    rw [vote_question_eq_notFound hEx] at h
    simp only [Except.ok.injEq, Prod.mk.injEq] at h
    rw [← h.2]
    exact ⟨rfl, rfl, rfl, Or.inl rfl⟩
  | true =>
    cases hF : findQVote db qid ah with
    | none =>
      rw [vote_question_eq_insert hEx hF] at h
      simp only [Except.ok.injEq, Prod.mk.injEq] at h
      rw [← h.2]
      exact ⟨rfl, rfl, rfl, Or.inr (Or.inl ⟨rfl, rfl⟩)⟩
    | some v =>
      rw [vote_question_eq_toggleOff hEx hF] at h
      simp only [Except.ok.injEq, Prod.mk.injEq] at h
      rw [← h.2]
      exact ⟨rfl, rfl, rfl, Or.inr (Or.inr rfl)⟩

/-- Sequential `vote_answer` never reports a storage conflict: the insert
only runs after the key lookup came back empty. -/
theorem vote_answer_ne_error (db : DB) (now : Int) (qid aid : Nat)
    (ah iph : String) (e : StorageConflict) :
    vote_answer db now qid aid ah iph ≠ Except.error e := by
  cases hEx : answerExists db aid qid with
  | false => rw [vote_answer_eq_notFound hEx]; simp
  | true =>
    cases hR : recentOther db now qid iph ah with
    | true => rw [vote_answer_eq_rateLimited hEx hR]; simp
    | false =>
      cases hF : findAVote db qid ah with
      | none => rw [vote_answer_eq_insert hEx hR hF]; simp
      | some v =>
        by_cases hv : v.answer_id = aid
        · rw [vote_answer_eq_toggleOff hEx hR hF hv]; simp
        · rw [vote_answer_eq_move hEx hR hF hv]; simp

/-- Sequential `vote_question` never reports a storage conflict. -/
theorem vote_question_ne_error (db : DB) (now : Int) (qid : Nat)
    (ah : String) (e : StorageConflict) :
    vote_question db now qid ah ≠ Except.error e := by
  cases hEx : questionExists db qid with
  | false => rw [vote_question_eq_notFound hEx]; simp
  | true =>
    cases hF : findQVote db qid ah with
    | none => rw [vote_question_eq_insert hEx hF]; simp
    | some v => rw [vote_question_eq_toggleOff hEx hF]; simp

/-- A completed `vote_answer` call preserves the answer-vote uniqueness
invariant. -/
theorem AUnique_vote_answer {db : DB} {now : Int} {qid aid : Nat}
    {ah iph : String} {resp : VoteResp} {db' : DB}
    (h : vote_answer db now qid aid ah iph = Except.ok (resp, db'))
    (hU : AUnique db) : AUnique db' := by
  obtain ⟨-, -, -, hAv⟩ := vote_answer_state db now qid aid ah iph resp db' h
  intro q hh
  rcases hAv with h' | ⟨hN, h'⟩ | h' | h'
  · rw [h']; exact hU q hh
  · rw [h', List.countP_append]
    by_cases hk : isAVoteFor q hh (⟨qid, aid, ah, iph, now⟩ : AVote) = true
    · obtain ⟨rfl, rfl⟩ : qid = q ∧ ah = hh := by
        simpa [isAVoteFor] using hk
      rw [countP_eq_zero_of_find?_none hN]
      simp [List.countP_cons, hk]
    · have hz : List.countP (isAVoteFor q hh)
          [(⟨qid, aid, ah, iph, now⟩ : AVote)] = 0 := by
        simp [List.countP_cons, hk]
      rw [hz]
      simpa using hU q hh
  · rw [h']
    exact le_trans (List.Sublist.countP_le _ (eraseFirstP_sublist _ _)) (hU q hh)
  · rw [h', countP_updateFirstP]
    · exact hU q hh
    · intro v; rfl

/-- A completed `vote_question` call preserves the question-vote
uniqueness invariant. -/
theorem QUnique_vote_question {db : DB} {now : Int} {qid : Nat}
    {ah : String} {resp : QVoteResp} {db' : DB}
    (h : vote_question db now qid ah = Except.ok (resp, db'))
    (hU : QUnique db) : QUnique db' := by
  obtain ⟨-, -, -, hQv⟩ := vote_question_state db now qid ah resp db' h
  intro q hh
  rcases hQv with h' | ⟨hN, h'⟩ | h'
  · rw [h']; exact hU q hh
  · rw [h', List.countP_append]
    by_cases hk : isQVoteFor q hh (⟨qid, ah, now⟩ : QVote) = true
    · obtain ⟨rfl, rfl⟩ : qid = q ∧ ah = hh := by
        simpa [isQVoteFor] using hk
      rw [countP_eq_zero_of_find?_none hN]
      simp [List.countP_cons, hk]
    · have hz : List.countP (isQVoteFor q hh) [(⟨qid, ah, now⟩ : QVote)] = 0 := by
        simp [List.countP_cons, hk]
      rw [hz]
      simpa using hU q hh
  · rw [h']
    exact le_trans (List.Sublist.countP_le _ (eraseFirstP_sublist _ _)) (hU q hh)

/-- One operation preserves both uniqueness invariants. -/
theorem applyOp_inv {db : DB} (hA : AUnique db) (hQ : QUnique db) (op : Op) :
    AUnique (applyOp db op) ∧ QUnique (applyOp db op) := by
  cases op with
  | castAnswerVote now qid aid ah iph =>
    cases hv : vote_answer db now qid aid ah iph with
    | ok r =>
      obtain ⟨resp, db'⟩ := r
      have he : applyOp db (Op.castAnswerVote now qid aid ah iph) = db' := by
        simp [applyOp, hv]
      rw [he]
      refine ⟨AUnique_vote_answer hv hA, ?_⟩
      intro q hh
      rw [(vote_answer_state db now qid aid ah iph resp db' hv).2.2.1]
      exact hQ q hh
    | error e => exact absurd hv (vote_answer_ne_error db now qid aid ah iph e)
  | castQuestionVote now qid ah =>
    cases hv : vote_question db now qid ah with
    | ok r =>
      obtain ⟨resp, db'⟩ := r
      have he : applyOp db (Op.castQuestionVote now qid ah) = db' := by
        simp [applyOp, hv]
      rw [he]
      refine ⟨?_, QUnique_vote_question hv hQ⟩
      intro q hh
      rw [(vote_question_state db now qid ah resp db' hv).2.2.1]
      exact hA q hh
    | error e => exact absurd hv (vote_question_ne_error db now qid ah e)

/-- Any run of operations preserves both uniqueness invariants. -/
theorem runOps_inv (ops : List Op) :
    ∀ db : DB, AUnique db → QUnique db →
      AUnique (runOps db ops) ∧ QUnique (runOps db ops) := by
  induction ops with
  | nil => intro db hA hQ; exact ⟨hA, hQ⟩
  | cons op t ih =>
    intro db hA hQ
    have h := applyOp_inv hA hQ op
    exact ih (applyOp db op) h.1 h.2

/-- `find?` on a list that ends in the only matching element finds it. -/
theorem find?_append_right {p : α → Bool} {l : List α}
    (h : ∀ x ∈ l, p x = false) (r : α) (hr : p r = true) :
    (l ++ [r]).find? p = some r := by
  induction l with
  | nil => simp [List.find?_cons, hr]
  | cons a t ih =>
    have ha : p a = false := h a (List.mem_cons_self a t)
    simp only [List.cons_append, List.find?_cons, ha]
    exact ih (fun x hx => h x (List.mem_cons_of_mem a hx))

/-- Pointwise form of a failed lookup. -/
theorem forall_eq_false_of_find?_none {p : α → Bool} {l : List α}
    (h : l.find? p = none) : ∀ x ∈ l, p x = false := by
  intro x hx
  have := List.find?_eq_none.mp h x hx
  simpa using this

/-- C1: starting from empty vote tables, after any sequence of
`castAnswerVote` and `castQuestionVote` operations, at most one
answer-vote row and at most one question-vote row exist per (question,
identity hash); in particular two answer-vote rows of the same (question,
identity hash) are the same row, so a voter never simultaneously backs
two different answers to one question. -/
theorem c1_at_most_one_vote_row (qs : List Nat) (ans : List (Nat × Nat))
    (ops : List Op) :
    (AUnique (runOps (DB.mk qs ans [] []) ops) ∧
     QUnique (runOps (DB.mk qs ans [] []) ops)) ∧
    (∀ q h v1 v2, v1 ∈ (runOps (DB.mk qs ans [] []) ops).avotes →
      v2 ∈ (runOps (DB.mk qs ans [] []) ops).avotes →
      isAVoteFor q h v1 = true → isAVoteFor q h v2 = true → v1 = v2) := by
  have h0A : AUnique (DB.mk qs ans [] []) := by
    intro q h; simp [List.countP_nil]
  have h0Q : QUnique (DB.mk qs ans [] []) := by
    intro q h; simp [List.countP_nil]
  have h := runOps_inv ops (DB.mk qs ans [] []) h0A h0Q
  refine ⟨h, ?_⟩
  intro q hh v1 v2 m1 m2 p1 p2
  exact countP_le_one_unique (h.1 q hh) m1 m2 p1 p2

/-- C1 witness: a concrete two-operation run (vote answer 1, then move to
answer 2) on which the uniqueness conclusion is instantiated. -/
theorem c1_at_most_one_vote_row_witness :
    (⟨42, 2, "alice", "ip", 5⟩ : AVote) = ⟨42, 2, "alice", "ip", 5⟩ :=
  (c1_at_most_one_vote_row [42] [(1, 42), (2, 42)]
      [Op.castAnswerVote 0 42 1 "alice" "ip",
       Op.castAnswerVote 5 42 2 "alice" "ip"]).2
    42 "alice" ⟨42, 2, "alice", "ip", 5⟩ ⟨42, 2, "alice", "ip", 5⟩
    (by decide) (by decide) (by decide) (by decide)

/-- C2: for an existing answer of an existing question, a non-rate-limited
`castAnswerVote` behaves in exactly one of three ways keyed by the
caller's existing row: insert reporting voted=true; toggle off (delete
that row) reporting voted=false; or move (rewrite that row in place to
the new answer, subnet hash and timestamp) reporting voted=true with the
previous answer id and its post-removal count. In every case the returned
count is the post-state row count for the target answer. -/
theorem c2_answer_vote_three_way (db : DB) (now : Int) (qid aid : Nat)
    (ah iph : String) (hEx : answerExists db aid qid = true)
    (hR : recentOther db now qid iph ah = false) :
    (findAVote db qid ah = none →
      vote_answer db now qid aid ah iph =
        Except.ok (VoteResp.ok true
          (countAVotes { db with avotes := db.avotes ++ [⟨qid, aid, ah, iph, now⟩] } qid aid)
          none none,
          { db with avotes := db.avotes ++ [⟨qid, aid, ah, iph, now⟩] })) ∧
    (∀ v, findAVote db qid ah = some v → v.answer_id = aid →
      ∃ l1 l2, db.avotes = l1 ++ v :: l2 ∧
        vote_answer db now qid aid ah iph =
          Except.ok (VoteResp.ok false
            (countAVotes { db with avotes := l1 ++ l2 } qid aid) none none,
            { db with avotes := l1 ++ l2 })) ∧
    (∀ v, findAVote db qid ah = some v → v.answer_id ≠ aid →
      ∃ l1 l2, db.avotes = l1 ++ v :: l2 ∧
        vote_answer db now qid aid ah iph =
          Except.ok (VoteResp.ok true
            (countAVotes { db with avotes := l1 ++ moveAVote aid iph now v :: l2 } qid aid)
            (some v.answer_id)
            (some (countAVotes { db with avotes := l1 ++ moveAVote aid iph now v :: l2 }
              qid v.answer_id)),
            { db with avotes := l1 ++ moveAVote aid iph now v :: l2 })) := by
  refine ⟨?_, ?_, ?_⟩
  · intro h3
    exact vote_answer_eq_insert hEx hR h3
  · intro v h3 h4
    obtain ⟨l1, l2, hL, hl1, hpv⟩ := find?_decomp (p := isAVoteFor qid ah) h3
    have he : eraseFirstP (isAVoteFor qid ah) db.avotes = l1 ++ l2 := by
      rw [hL]; exact eraseFirstP_decomp _ _ _ _ hl1 hpv
    refine ⟨l1, l2, hL, ?_⟩
    rw [vote_answer_eq_toggleOff hEx hR h3 h4, he]
  · intro v h3 h4
    obtain ⟨l1, l2, hL, hl1, hpv⟩ := find?_decomp (p := isAVoteFor qid ah) h3
    have he : updateFirstP (isAVoteFor qid ah) (moveAVote aid iph now) db.avotes =
        l1 ++ moveAVote aid iph now v :: l2 := by
      rw [hL]; exact updateFirstP_decomp _ _ _ _ _ hl1 hpv
    refine ⟨l1, l2, hL, ?_⟩
    rw [vote_answer_eq_move hEx hR h3 h4, he]

/-- C2 witness: first vote by a fresh identity on a concrete state. -/
theorem c2_answer_vote_three_way_witness :
    vote_answer ⟨[42], [(1, 42), (2, 42)], [], []⟩ 0 42 1 "alice" "ip" =
      Except.ok (VoteResp.ok true 1 none none,
        ⟨[42], [(1, 42), (2, 42)], [⟨42, 1, "alice", "ip", 0⟩], []⟩) := by
  have h := (c2_answer_vote_three_way ⟨[42], [(1, 42), (2, 42)], [], []⟩
    0 42 1 "alice" "ip" (by decide) (by decide)).1 (by decide)
  rw [h]
  rfl

/-- C3: for an existing answer, `castAnswerVote` is rejected as
rate-limited — with the state unchanged — precisely when some answer-vote
row of the same question carries the same subnet hash, a different
identity hash and a timestamp within the trailing 24 hours; the check
precedes any look at the caller's own vote (the characterization holds
whatever that vote is), and without such a row the call always completes
with a voted/count result. -/
theorem c3_subnet_rate_limit (db : DB) (now : Int) (qid aid : Nat)
    (ah iph : String) (hEx : answerExists db aid qid = true) :
    (vote_answer db now qid aid ah iph = Except.ok (VoteResp.rateLimited, db) ↔
      ∃ v ∈ db.avotes, v.question_id = qid ∧ v.ip_hash = iph ∧
        v.anon_hash ≠ ah ∧ now - 86400 ≤ v.created_at) ∧
    (∀ resp db', vote_answer db now qid aid ah iph = Except.ok (resp, db') →
      resp = VoteResp.rateLimited → db' = db) ∧
    ((¬ ∃ v ∈ db.avotes, v.question_id = qid ∧ v.ip_hash = iph ∧
        v.anon_hash ≠ ah ∧ now - 86400 ≤ v.created_at) →
      ∃ voted cnt mv mc db',
        vote_answer db now qid aid ah iph =
          Except.ok (VoteResp.ok voted cnt mv mc, db')) := by
  refine ⟨⟨?_, ?_⟩, ?_, ?_⟩
  · intro h
    cases hR : recentOther db now qid iph ah with
    | true => exact (recentOther_iff db now qid iph ah).mp hR
    | false =>
      exfalso
      cases hF : findAVote db qid ah with
      | none => rw [vote_answer_eq_insert hEx hR hF] at h; simp at h
      | some v =>
        by_cases hv : v.answer_id = aid
        · rw [vote_answer_eq_toggleOff hEx hR hF hv] at h; simp at h
        · rw [vote_answer_eq_move hEx hR hF hv] at h; simp at h
  · intro hex
    exact vote_answer_eq_rateLimited hEx ((recentOther_iff db now qid iph ah).mpr hex)
  · intro resp db' h hresp
    subst hresp
    cases hR : recentOther db now qid iph ah with
    | true =>
      rw [vote_answer_eq_rateLimited hEx hR] at h
      simp only [Except.ok.injEq, Prod.mk.injEq] at h
      exact h.2.symm
    | false =>
      exfalso
      cases hF : findAVote db qid ah with
      | none => rw [vote_answer_eq_insert hEx hR hF] at h; simp at h
      | some v =>
        by_cases hv : v.answer_id = aid
        · rw [vote_answer_eq_toggleOff hEx hR hF hv] at h; simp at h
        · rw [vote_answer_eq_move hEx hR hF hv] at h; simp at h
  · intro hnex
    cases hR : recentOther db now qid iph ah with
    | true => exact absurd ((recentOther_iff db now qid iph ah).mp hR) hnex
    | false =>
      cases hF : findAVote db qid ah with
      | none =>
        exact ⟨true, _, none, none, _, vote_answer_eq_insert hEx hR hF⟩
      | some v =>
        by_cases hv : v.answer_id = aid
        · exact ⟨false, _, none, none, _, vote_answer_eq_toggleOff hEx hR hF hv⟩
        · exact ⟨true, _, some v.answer_id, _, _, vote_answer_eq_move hEx hR hF hv⟩

/-- C3 witness: with bob's vote on the same subnet 100 seconds old,
alice's vote is rejected unchanged; the identical call 86500 seconds
after bob's vote completes. -/
theorem c3_subnet_rate_limit_witness :
    vote_answer ⟨[42], [(1, 42), (2, 42)], [⟨42, 1, "bob", "net", 0⟩], []⟩
        100 42 1 "alice" "net" =
      Except.ok (VoteResp.rateLimited,
        ⟨[42], [(1, 42), (2, 42)], [⟨42, 1, "bob", "net", 0⟩], []⟩) ∧
    (∃ voted cnt mv mc db',
      vote_answer ⟨[42], [(1, 42), (2, 42)], [⟨42, 1, "bob", "net", 0⟩], []⟩
          86500 42 1 "alice" "net" =
        Except.ok (VoteResp.ok voted cnt mv mc, db')) := by
  constructor
  · exact (c3_subnet_rate_limit ⟨[42], [(1, 42), (2, 42)], [⟨42, 1, "bob", "net", 0⟩], []⟩
      100 42 1 "alice" "net" (by decide)).1.mpr
      ⟨⟨42, 1, "bob", "net", 0⟩, by decide, rfl, rfl, by decide, by decide⟩
  · exact (c3_subnet_rate_limit ⟨[42], [(1, 42), (2, 42)], [⟨42, 1, "bob", "net", 0⟩], []⟩
      86500 42 1 "alice" "net" (by decide)).2.2 (by decide)

/-- C4: a `castAnswerVote` whose (answer id, question id) pair is not in
the answers table — in particular, under referential integrity of the
answers table, whenever the question itself does not exist — returns
`not_found` with the state unchanged, and a `castQuestionVote` on a
missing question likewise. -/
theorem c4_not_found_no_mutation (db : DB) (now : Int) (qid aid : Nat)
    (ah iph : String) :
    ((aid, qid) ∉ db.answers →
      vote_answer db now qid aid ah iph = Except.ok (VoteResp.notFound, db)) ∧
    (qid ∉ db.questions → (∀ p ∈ db.answers, p.2 ∈ db.questions) →
      vote_answer db now qid aid ah iph = Except.ok (VoteResp.notFound, db)) ∧
    (qid ∉ db.questions →
      vote_question db now qid ah = Except.ok (QVoteResp.notFound, db)) := by
  refine ⟨?_, ?_, ?_⟩
  · intro hm
    cases hEx : answerExists db aid qid with
    | true => exact absurd ((answerExists_iff db aid qid).mp hEx) hm
    | false => exact vote_answer_eq_notFound hEx
  · intro hq hfk
    cases hEx : answerExists db aid qid with
    | true =>
      exact absurd (hfk (aid, qid) ((answerExists_iff db aid qid).mp hEx)) hq
    | false => exact vote_answer_eq_notFound hEx
  · intro hq
    cases hQ : questionExists db qid with
    | true => exact absurd ((questionExists_iff db qid).mp hQ) hq
    | false => exact vote_question_eq_notFound hQ

/-- C4 witness: voting for a missing answer id and a missing question id
on a concrete state. -/
theorem c4_not_found_no_mutation_witness :
    vote_answer ⟨[42], [(1, 42)], [⟨42, 1, "z", "net", 0⟩], []⟩ 9 42 7 "alice" "net" =
      Except.ok (VoteResp.notFound, ⟨[42], [(1, 42)], [⟨42, 1, "z", "net", 0⟩], []⟩) ∧
    vote_question ⟨[42], [(1, 42)], [⟨42, 1, "z", "net", 0⟩], []⟩ 9 7 "alice" =
      Except.ok (QVoteResp.notFound, ⟨[42], [(1, 42)], [⟨42, 1, "z", "net", 0⟩], []⟩) := by
  constructor
  · exact (c4_not_found_no_mutation ⟨[42], [(1, 42)], [⟨42, 1, "z", "net", 0⟩], []⟩
      9 42 7 "alice" "net").1 (by decide)
  · exact (c4_not_found_no_mutation ⟨[42], [(1, 42)], [⟨42, 1, "z", "net", 0⟩], []⟩
      9 7 0 "alice" "net").2.2 (by decide)

/-- C6: for an existing question, `castQuestionVote` toggles the
(question, identity hash) row — insert when absent reporting voted=true,
delete when present reporting voted=false — applies no rate limiting
(the call always completes with a voted/count result), and reports the
post-state row count of the question. -/
theorem c6_question_vote_toggle (db : DB) (now : Int) (qid : Nat)
    (ah : String) (hQ : qid ∈ db.questions) :
    (findQVote db qid ah = none →
      vote_question db now qid ah =
        Except.ok (QVoteResp.ok true
          (countQVotes { db with qvotes := db.qvotes ++ [⟨qid, ah, now⟩] } qid),
          { db with qvotes := db.qvotes ++ [⟨qid, ah, now⟩] })) ∧
    (∀ v, findQVote db qid ah = some v →
      ∃ l1 l2, db.qvotes = l1 ++ v :: l2 ∧
        vote_question db now qid ah =
          Except.ok (QVoteResp.ok false (countQVotes { db with qvotes := l1 ++ l2 } qid),
            { db with qvotes := l1 ++ l2 })) ∧
    (∃ voted cnt db',
      vote_question db now qid ah = Except.ok (QVoteResp.ok voted cnt, db')) := by
  have hQ' : questionExists db qid = true := (questionExists_iff db qid).mpr hQ
  refine ⟨?_, ?_, ?_⟩
  · intro hF
    exact vote_question_eq_insert hQ' hF
  · intro v hF
    obtain ⟨l1, l2, hL, hl1, hpv⟩ := find?_decomp (p := isQVoteFor qid ah) hF
    have he : eraseFirstP (isQVoteFor qid ah) db.qvotes = l1 ++ l2 := by
      rw [hL]; exact eraseFirstP_decomp _ _ _ _ hl1 hpv
    refine ⟨l1, l2, hL, ?_⟩
    rw [vote_question_eq_toggleOff hQ' hF, he]
  · cases hF : findQVote db qid ah with
    | none => exact ⟨true, _, _, vote_question_eq_insert hQ' hF⟩
    | some v => exact ⟨false, _, _, vote_question_eq_toggleOff hQ' hF⟩

/-- C6 witness: toggling a question vote on and then off on a concrete
state. -/
theorem c6_question_vote_toggle_witness :
    vote_question ⟨[42], [], [], []⟩ 3 42 "alice" =
      Except.ok (QVoteResp.ok true 1, ⟨[42], [], [], [⟨42, "alice", 3⟩]⟩) ∧
    (∃ l1 l2, (⟨[42], [], [], [⟨42, "alice", 3⟩]⟩ : DB).qvotes =
        l1 ++ (⟨42, "alice", 3⟩ : QVote) :: l2 ∧
      vote_question ⟨[42], [], [], [⟨42, "alice", 3⟩]⟩ 8 42 "alice" =
        Except.ok (QVoteResp.ok false
          (countQVotes { (⟨[42], [], [], [⟨42, "alice", 3⟩]⟩ : DB) with qvotes := l1 ++ l2 } 42),
          { (⟨[42], [], [], [⟨42, "alice", 3⟩]⟩ : DB) with qvotes := l1 ++ l2 })) := by
  constructor
  · have h := (c6_question_vote_toggle ⟨[42], [], [], []⟩ 3 42 "alice"
      (by decide)).1 (by decide)
    rw [h]
    rfl
  · exact (c6_question_vote_toggle ⟨[42], [], [], [⟨42, "alice", 3⟩]⟩ 8 42 "alice"
      (by decide)).2.1 ⟨42, "alice", 3⟩ (by decide)

/-- C5 counterexample: a racing duplicate insert is NOT recovered. On the
empty state the caller's lookup finds no row; a racing request for the
same (question, identity hash) key then inserts its row; the original
request's insert branch — which the source wraps in no exception
handler — thereupon surfaces the uniqueness violation to the caller
instead of retrying as an update or toggle. -/
theorem c5_conflict_surfaced_counterexample :
    findAVote ⟨[42], [(1, 42), (2, 42)], [], []⟩ 42 "alice" = none ∧
    avInsert ⟨[42], [(1, 42), (2, 42)], [], []⟩ ⟨42, 2, "alice", "net", 3⟩ =
      Except.ok ⟨[42], [(1, 42), (2, 42)], [⟨42, 2, "alice", "net", 3⟩], []⟩ ∧
    vote_answer_insertBranch ⟨[42], [(1, 42), (2, 42)], [⟨42, 2, "alice", "net", 3⟩], []⟩
        5 42 1 "alice" "net" =
      Except.error StorageConflict.uniqueViolation :=
  ⟨rfl, rfl, rfl⟩

/-- C5 amended: in sequential execution the existence check guards the
insert, so neither operation ever reports a storage conflict; but the
code contains no recovery path — whenever the insert branch runs against
a state already holding the key, the uniqueness violation is surfaced to
the caller as an error, never retried as an update or toggle. -/
theorem c5_no_conflict_recovery :
    (∀ (db : DB) (now : Int) (qid aid : Nat) (ah iph : String)
        (e : StorageConflict),
      vote_answer db now qid aid ah iph ≠ Except.error e) ∧
    (∀ (db : DB) (now : Int) (qid : Nat) (ah : String) (e : StorageConflict),
      vote_question db now qid ah ≠ Except.error e) ∧
    (∀ (db : DB) (now : Int) (qid aid : Nat) (ah iph : String),
      db.avotes.any (isAVoteFor qid ah) = true →
      vote_answer_insertBranch db now qid aid ah iph =
        Except.error StorageConflict.uniqueViolation) := by
  refine ⟨vote_answer_ne_error, vote_question_ne_error, ?_⟩
  intro db now qid aid ah iph h
  simp [vote_answer_insertBranch, avInsert, h]

/-- C5 witness: the unguarded insert branch surfacing the conflict on a
concrete conflicting state. -/
theorem c5_no_conflict_recovery_witness :
    vote_answer_insertBranch ⟨[7], [(1, 7)], [⟨7, 1, "alice", "net", 0⟩], []⟩
        4 7 1 "alice" "net" =
      Except.error StorageConflict.uniqueViolation :=
  c5_no_conflict_recovery.2.2 ⟨[7], [(1, 7)], [⟨7, 1, "alice", "net", 0⟩], []⟩
    4 7 1 "alice" "net" (by decide)

/-- C7: `normalizeSubnet` keeps the first 4 colon groups of a
colon-containing address, truncates a colon-free 4-octet address to its
first 3 octets plus a zero octet, passes any other address through
unchanged, and consequently any two addresses with the same normalized
subnet receive the same subnet hash under the same secret. -/
theorem c7_normalize_subnet (hm : String → String → String) (secret : String) :
    (∀ ip, containsChar ':' ip = true →
      normalizeSubnet ip = joinWithChar ':' ((splitOnChar ':' ip).take 4)) ∧
    (∀ ip, containsChar ':' ip = false → (splitOnChar '.' ip).length = 4 →
      normalizeSubnet ip = joinWithChar '.' ((splitOnChar '.' ip).take 3 ++ ["0"])) ∧
    (∀ ip, containsChar ':' ip = false → (splitOnChar '.' ip).length ≠ 4 →
      normalizeSubnet ip = ip) ∧
    (∀ a b, normalizeSubnet a = normalizeSubnet b →
      make_ip_hash hm secret a = make_ip_hash hm secret b) := by
  refine ⟨?_, ?_, ?_, ?_⟩
  · intro ip h
    simp [normalizeSubnet, h]
  · intro ip h h4
    simp [normalizeSubnet, h, h4]
  · intro ip h h4
    simp [normalizeSubnet, h, h4]
  · intro a b h
    simp [make_ip_hash, h]

/-- C7 witness: two concrete addresses of the same /24 collide to one
subnet hash, and the IPv4 truncation is evaluated on one of them. -/
theorem c7_normalize_subnet_witness :
    normalizeSubnet "203.0.113.77" = "203.0.113.0" ∧
    make_ip_hash (fun s m => s ++ m) "k" "203.0.113.77" =
      make_ip_hash (fun s m => s ++ m) "k" "203.0.113.9" := by
  constructor
  · have h := (c7_normalize_subnet (fun s m => s ++ m) "k").2.1
      "203.0.113.77" (by decide) (by decide)
    rw [h]
    decide
  · exact (c7_normalize_subnet (fun s m => s ++ m) "k").2.2.2
      "203.0.113.77" "203.0.113.9" (by decide)

/-- C10: subnet-hash derivation is total at the public interface: the
missing-header, missing-peer case yields the empty address string, and
every colon-free address that does not split into exactly 4 dot parts —
including `""`, `"1.2.3"` and `"1.2.3.4.5"` — is hashed unchanged;
the truncation-plus-zero-octet shape applies exactly when the colon-free
address splits into 4 dot parts. -/
theorem c10_hash_total_on_malformed (hm : String → String → String)
    (secret : String) :
    client_ip none none = "" ∧
    (∀ ip, containsChar ':' ip = false → (splitOnChar '.' ip).length ≠ 4 →
      make_ip_hash hm secret ip = hm secret ip) ∧
    make_ip_hash hm secret "" = hm secret "" ∧
    make_ip_hash hm secret "1.2.3" = hm secret "1.2.3" ∧
    make_ip_hash hm secret "1.2.3.4.5" = hm secret "1.2.3.4.5" ∧
    (∀ ip, containsChar ':' ip = false → (splitOnChar '.' ip).length = 4 →
      make_ip_hash hm secret ip =
        hm secret (joinWithChar '.' ((splitOnChar '.' ip).take 3 ++ ["0"]))) := by
  refine ⟨by decide, ?_, ?_, ?_, ?_, ?_⟩
  · intro ip h h4
    simp [make_ip_hash, normalizeSubnet, h, h4]
  · have hn : normalizeSubnet "" = "" := by decide
    simp [make_ip_hash, hn]
  · have hn : normalizeSubnet "1.2.3" = "1.2.3" := by decide
    simp [make_ip_hash, hn]
  · have hn : normalizeSubnet "1.2.3.4.5" = "1.2.3.4.5" := by decide
    simp [make_ip_hash, hn]
  · intro ip h h4
    simp [make_ip_hash, normalizeSubnet, h, h4]

/-- C10 witness: the malformed-address clause evaluated concretely. -/
theorem c10_hash_total_on_malformed_witness :
    make_ip_hash (fun s m => s ++ m) "k" "1.2.3" = "k1.2.3" := by
  have h := (c10_hash_total_on_malformed (fun s m => s ++ m) "k").2.1
    "1.2.3" (by decide) (by decide)
  rw [h]
  decide

/-- C8: from a state where the identity holds no vote on the question,
voting for an answer and then voting for the same answer again (absent
rate-limit interference at either time) round-trips the ledger to exactly
its original state, with the second count one below the post-first-vote
count. -/
theorem c8_toggle_round_trip (db : DB) (now1 now2 : Int) (qid aid : Nat)
    (ah iph1 iph2 : String) (hEx : answerExists db aid qid = true)
    (hNone : findAVote db qid ah = none)
    (hR1 : recentOther db now1 qid iph1 ah = false)
    (hR2 : recentOther db now2 qid iph2 ah = false) :
    vote_answer db now1 qid aid ah iph1 =
      Except.ok (VoteResp.ok true (countAVotes db qid aid + 1) none none,
        { db with avotes := db.avotes ++ [⟨qid, aid, ah, iph1, now1⟩] }) ∧
    vote_answer { db with avotes := db.avotes ++ [⟨qid, aid, ah, iph1, now1⟩] }
        now2 qid aid ah iph2 =
      Except.ok (VoteResp.ok false (countAVotes db qid aid) none none, db) := by
  have hcnt : countAVotes
      { db with avotes := db.avotes ++ [⟨qid, aid, ah, iph1, now1⟩] } qid aid =
      countAVotes db qid aid + 1 := by
    simp [countAVotes, List.countP_append, List.countP_cons]
  constructor
  · rw [vote_answer_eq_insert hEx hR1 hNone, hcnt]
  · have hEx1 : answerExists
        { db with avotes := db.avotes ++ [⟨qid, aid, ah, iph1, now1⟩] } aid qid = true := hEx
    have hR2' : recentOther
        { db with avotes := db.avotes ++ [⟨qid, aid, ah, iph1, now1⟩] }
        now2 qid iph2 ah = false := by
      have hrow : isRecentOther now2 qid iph2 ah ⟨qid, aid, ah, iph1, now1⟩ = false := by
        simp [isRecentOther]
      show (db.avotes ++ [(⟨qid, aid, ah, iph1, now1⟩ : AVote)]).any
        (isRecentOther now2 qid iph2 ah) = false
      rw [List.any_append]
      simp only [List.any_cons, List.any_nil, hrow, Bool.or_false, Bool.false_or]
      exact hR2
    have hF1 : findAVote
        { db with avotes := db.avotes ++ [⟨qid, aid, ah, iph1, now1⟩] } qid ah =
        some ⟨qid, aid, ah, iph1, now1⟩ := by
      show (db.avotes ++ [(⟨qid, aid, ah, iph1, now1⟩ : AVote)]).find? (isAVoteFor qid ah) = _
      exact find?_append_right (forall_eq_false_of_find?_none hNone) _
        (by simp [isAVoteFor])
    have he : eraseFirstP (isAVoteFor qid ah)
        ({ db with avotes := db.avotes ++ [⟨qid, aid, ah, iph1, now1⟩] } : DB).avotes =
        db.avotes := by
      show eraseFirstP (isAVoteFor qid ah)
        (db.avotes ++ (⟨qid, aid, ah, iph1, now1⟩ : AVote) :: []) = db.avotes
      rw [eraseFirstP_decomp _ _ _ _ (forall_eq_false_of_find?_none hNone)
        (by simp [isAVoteFor])]
      simp
    rw [vote_answer_eq_toggleOff hEx1 hR2' hF1 rfl, he]

/-- C8 witness: the alice scenario reduced to the round trip — a first
vote on answer 1 of question 42 reports voted=true with count 1, and a
second identical vote reports voted=false with count 0, restoring the
original state. -/
theorem c8_toggle_round_trip_witness :
    vote_answer ⟨[42], [(1, 42), (2, 42)], [], []⟩ 0 42 1 "alice" "ip" =
      Except.ok (VoteResp.ok true 1 none none,
        ⟨[42], [(1, 42), (2, 42)], [⟨42, 1, "alice", "ip", 0⟩], []⟩) ∧
    vote_answer ⟨[42], [(1, 42), (2, 42)], [⟨42, 1, "alice", "ip", 0⟩], []⟩
        7 42 1 "alice" "ip" =
      Except.ok (VoteResp.ok false 0 none none, ⟨[42], [(1, 42), (2, 42)], [], []⟩) := by
  have h := c8_toggle_round_trip ⟨[42], [(1, 42), (2, 42)], [], []⟩ 0 7 42 1
    "alice" "ip" "ip" (by decide) (by decide) (by decide) (by decide)
  exact ⟨h.1, h.2⟩

/-- C9: a completed `castAnswerVote` leaves the content tables and the
question-vote table untouched, leaves everything untouched on a
`not_found` or rate-limit rejection, and on success performs exactly one
row mutation on the answer-vote table: one appended row, one removed row,
or one row rewritten in place; symmetrically a completed
`castQuestionVote` only ever appends or removes one question-vote row. -/
theorem c9_single_row_mutation :
    (∀ (db : DB) (now : Int) (qid aid : Nat) (ah iph : String)
        (resp : VoteResp) (db' : DB),
      vote_answer db now qid aid ah iph = Except.ok (resp, db') →
      db'.questions = db.questions ∧ db'.answers = db.answers ∧
      db'.qvotes = db.qvotes ∧
      ((resp = VoteResp.notFound ∨ resp = VoteResp.rateLimited) → db' = db) ∧
      (∀ voted cnt mv mc, resp = VoteResp.ok voted cnt mv mc →
        (∃ r, db'.avotes = db.avotes ++ [r]) ∨
        (∃ l1 r l2, db.avotes = l1 ++ r :: l2 ∧ db'.avotes = l1 ++ l2) ∨
        (∃ l1 r r' l2, db.avotes = l1 ++ r :: l2 ∧
          db'.avotes = l1 ++ r' :: l2))) ∧
    (∀ (db : DB) (now : Int) (qid : Nat) (ah : String)
        (resp : QVoteResp) (db' : DB),
      vote_question db now qid ah = Except.ok (resp, db') →
      db'.questions = db.questions ∧ db'.answers = db.answers ∧
      db'.avotes = db.avotes ∧
      (resp = QVoteResp.notFound → db' = db) ∧
      (∀ voted cnt, resp = QVoteResp.ok voted cnt →
        (∃ r, db'.qvotes = db.qvotes ++ [r]) ∨
        (∃ l1 r l2, db.qvotes = l1 ++ r :: l2 ∧ db'.qvotes = l1 ++ l2))) := by
  constructor
  · intro db now qid aid ah iph resp db' h
    cases hEx : answerExists db aid qid with
    | false =>
      rw [vote_answer_eq_notFound hEx] at h
      simp only [Except.ok.injEq, Prod.mk.injEq] at h
      obtain ⟨rfl, rfl⟩ := h
      refine ⟨rfl, rfl, rfl, fun _ => rfl, ?_⟩
      intro voted cnt mv mc hr
      simp at hr
    | true =>
      cases hR : recentOther db now qid iph ah with
      | true =>
        rw [vote_answer_eq_rateLimited hEx hR] at h
        simp only [Except.ok.injEq, Prod.mk.injEq] at h
        obtain ⟨rfl, rfl⟩ := h
        refine ⟨rfl, rfl, rfl, fun _ => rfl, ?_⟩
        intro voted cnt mv mc hr
        simp at hr
      | false =>
        cases hF : findAVote db qid ah with
        | none =>
          rw [vote_answer_eq_insert hEx hR hF] at h
          simp only [Except.ok.injEq, Prod.mk.injEq] at h
          obtain ⟨rfl, rfl⟩ := h
          refine ⟨rfl, rfl, rfl, ?_, ?_⟩
          · intro hcase
            rcases hcase with h' | h' <;> simp at h'
          · intro voted cnt mv mc hr
            exact Or.inl ⟨⟨qid, aid, ah, iph, now⟩, rfl⟩
        | some v =>
          obtain ⟨l1, l2, hL, hl1, hpv⟩ := find?_decomp (p := isAVoteFor qid ah) hF
          by_cases hv : v.answer_id = aid
          · rw [vote_answer_eq_toggleOff hEx hR hF hv] at h
            simp only [Except.ok.injEq, Prod.mk.injEq] at h
            obtain ⟨rfl, rfl⟩ := h
            refine ⟨rfl, rfl, rfl, ?_, ?_⟩
            · intro hcase
              rcases hcase with h' | h' <;> simp at h'
            · intro voted cnt mv mc hr
              refine Or.inr (Or.inl ?_)
              refine ⟨l1, v, l2, hL, ?_⟩
              show eraseFirstP (isAVoteFor qid ah) db.avotes = l1 ++ l2
              rw [hL]
              exact eraseFirstP_decomp _ _ _ _ hl1 hpv
          · rw [vote_answer_eq_move hEx hR hF hv] at h
            simp only [Except.ok.injEq, Prod.mk.injEq] at h
            obtain ⟨rfl, rfl⟩ := h
            refine ⟨rfl, rfl, rfl, ?_, ?_⟩
            · intro hcase
              rcases hcase with h' | h' <;> simp at h'
            · intro voted cnt mv mc hr
              refine Or.inr (Or.inr ?_)
              refine ⟨l1, v, moveAVote aid iph now v, l2, hL, ?_⟩
              show updateFirstP (isAVoteFor qid ah) (moveAVote aid iph now) db.avotes =
                l1 ++ moveAVote aid iph now v :: l2
              rw [hL]
              exact updateFirstP_decomp _ _ _ _ _ hl1 hpv
  · intro db now qid ah resp db' h
    cases hQ : questionExists db qid with
    | false =>
      rw [vote_question_eq_notFound hQ] at h
      simp only [Except.ok.injEq, Prod.mk.injEq] at h
      obtain ⟨rfl, rfl⟩ := h
      refine ⟨rfl, rfl, rfl, fun _ => rfl, ?_⟩
      intro voted cnt hr
      simp at hr
    | true =>
      cases hF : findQVote db qid ah with
      | none =>
        rw [vote_question_eq_insert hQ hF] at h
        simp only [Except.ok.injEq, Prod.mk.injEq] at h
        obtain ⟨rfl, rfl⟩ := h
        refine ⟨rfl, rfl, rfl, ?_, ?_⟩
        · intro h'
          simp at h'
        · intro voted cnt hr
          exact Or.inl ⟨⟨qid, ah, now⟩, rfl⟩
      | some v =>
        obtain ⟨l1, l2, hL, hl1, hpv⟩ := find?_decomp (p := isQVoteFor qid ah) hF
        rw [vote_question_eq_toggleOff hQ hF] at h
        simp only [Except.ok.injEq, Prod.mk.injEq] at h
        obtain ⟨rfl, rfl⟩ := h
        refine ⟨rfl, rfl, rfl, ?_, ?_⟩
        · intro h'
          simp at h'
        · intro voted cnt hr
          refine Or.inr ⟨l1, v, l2, hL, ?_⟩
          show eraseFirstP (isQVoteFor qid ah) db.qvotes = l1 ++ l2
          rw [hL]
          exact eraseFirstP_decomp _ _ _ _ hl1 hpv

/-- C9 witness: a concrete answer vote that appends one answer-vote row
while the question-vote table stays untouched. -/
theorem c9_single_row_mutation_witness :
    (⟨[42], [(1, 42)], [⟨42, 1, "alice", "ip", 0⟩], [⟨42, "z", 0⟩]⟩ : DB).qvotes =
      (⟨[42], [(1, 42)], [], [⟨42, "z", 0⟩]⟩ : DB).qvotes ∧
    ((∃ r, (⟨[42], [(1, 42)], [⟨42, 1, "alice", "ip", 0⟩], [⟨42, "z", 0⟩]⟩ : DB).avotes =
        (⟨[42], [(1, 42)], [], [⟨42, "z", 0⟩]⟩ : DB).avotes ++ [r]) ∨
     (∃ l1 r l2, (⟨[42], [(1, 42)], [], [⟨42, "z", 0⟩]⟩ : DB).avotes = l1 ++ r :: l2 ∧
        (⟨[42], [(1, 42)], [⟨42, 1, "alice", "ip", 0⟩], [⟨42, "z", 0⟩]⟩ : DB).avotes = l1 ++ l2) ∨
     (∃ l1 r r' l2, (⟨[42], [(1, 42)], [], [⟨42, "z", 0⟩]⟩ : DB).avotes = l1 ++ r :: l2 ∧
        (⟨[42], [(1, 42)], [⟨42, 1, "alice", "ip", 0⟩], [⟨42, "z", 0⟩]⟩ : DB).avotes =
          l1 ++ r' :: l2)) := by
  have h := c9_single_row_mutation.1 ⟨[42], [(1, 42)], [], [⟨42, "z", 0⟩]⟩ 0 42 1
    "alice" "ip" (VoteResp.ok true 1 none none)
    ⟨[42], [(1, 42)], [⟨42, 1, "alice", "ip", 0⟩], [⟨42, "z", 0⟩]⟩ (by rfl)
  exact ⟨h.2.2.1, h.2.2.2.2 true 1 none none rfl⟩

example : splitOnChar '.' "10.1.2.3" = ["10", "1", "2", "3"] := by decide
example : splitOnChar '.' "" = [""] := by decide
example : normalizeSubnet "10.1.2.3" = "10.1.2.0" := by decide
example : normalizeSubnet "1.2.3" = "1.2.3" := by decide
example : normalizeSubnet "2a01:e34:ec2a:12f0:1:2:3:4" = "2a01:e34:ec2a:12f0" := by decide
example : client_ip (some " 1.2.3.4 , 5.6.7.8") none = "1.2.3.4" := by decide
example : client_ip none none = "" := by decide
